import Mathlib

/-!
Verification of `Frontend/server.py` (TodoListApp static file server)
against its natural-language specification.

The script configures and delegates to the Python standard library's
`http.server.SimpleHTTPRequestHandler`, so this development shallowly
embeds both the script itself (constants `PORT`, `DIRECTORY`, the
`Handler` subclass with its overridden `log_message`, and `run_server`)
and the standard-library machinery the script delegates to
(`SimpleHTTPRequestHandler.translate_path` / `send_head` / `do_GET`,
`posixpath.normpath` / `join` / `dirname`, `urllib.parse.unquote`).

Python strings are modelled as lists of characters; file contents are
lists of bytes; the filesystem is an abstract record of the `os` calls
the handler makes; logging is threaded as explicit state through the
request handler, with the log sink a parameter.
-/

set_option maxRecDepth 10000

/-- Python strings, modelled as lists of characters. -/
abbrev PyStr := List Char

/-- Embed a Lean string literal as a Python string value. -/
def pstr (s : String) : PyStr := s.data

/-- The whitespace characters removed by Python's `str.rstrip()`
(ASCII subset; the wider Unicode whitespace set is irrelevant to the
request paths considered here). -/
def isPySpace (c : Char) : Bool :=
  c == ' ' || c == '\t' || c == '\n' || c == '\r' || c == '\x0b' || c == '\x0c'

/-- Python `s.rstrip()`: remove trailing whitespace. -/
def rstrip (s : PyStr) : PyStr := (s.reverse.dropWhile isPySpace).reverse

/-- Python `s.split(c, 1)[0]`: the prefix of `s` before the first
occurrence of `c` (all of `s` when `c` does not occur). -/
def splitOnce (c : Char) (s : PyStr) : PyStr := s.takeWhile (fun x => x != c)

/-- Python `s.endswith('/')`. -/
def endsWithSlash (s : PyStr) : Bool := s.getLast? == some '/'

/-- Python `str.split(sep)` for a one-character separator: splits into
the (possibly empty) chunks between occurrences of `c`; the result is
never the empty list. -/
def pysplit (c : Char) : PyStr → List PyStr
  | [] => [[]]
  | x :: rest =>
    if x = c then [] :: pysplit c rest
    else
      match pysplit c rest with
      | r :: rs => (x :: r) :: rs
      | [] => [[x]]

/-- Python `sep.join(chunks)`. -/
def pyjoin (sep : PyStr) : List PyStr → PyStr
  | [] => []
  | [x] => x
  | x :: xs => x ++ sep ++ pyjoin sep xs

/-- Hexadecimal digit test, as accepted by `urllib.parse.unquote`. -/
def isHexDigit (c : Char) : Bool :=
  ('0' ≤ c && c ≤ '9') || ('a' ≤ c && c ≤ 'f') || ('A' ≤ c && c ≤ 'F')

/-- Value of a hexadecimal digit. -/
def hexVal (c : Char) : Nat :=
  if '0' ≤ c ∧ c ≤ '9' then c.toNat - '0'.toNat
  else if 'a' ≤ c ∧ c ≤ 'f' then c.toNat - 'a'.toNat + 10
  else c.toNat - 'A'.toNat + 10

/-- `urllib.parse.unquote`: percent-decoding of `%XX` escapes, modelled
at the code-point level (exact for ASCII escapes; the multi-byte UTF-8
recombination of consecutive high escapes is not modelled, and nothing
below depends on it). -/
def unquote : PyStr → PyStr
  | [] => []
  | [c] => [c]
  | [c, c1] => [c, c1]
  | c :: c1 :: c2 :: rest =>
    if c = '%' ∧ isHexDigit c1 ∧ isHexDigit c2 then
      Char.ofNat (16 * hexVal c1 + hexVal c2) :: unquote rest
    else
      c :: unquote (c1 :: c2 :: rest)

/-- The `initial_slashes` count computed by `posixpath.normpath`:
`path.startswith('/')` upgraded to `2` when the path starts with
exactly two slashes. -/
def initialSlashes (p : PyStr) : Nat :=
  if p.head? = some '/' then
    if ['/', '/'] <+: p ∧ ¬ (['/', '/', '/'] <+: p) then 2 else 1
  else 0

/-- One iteration of the component loop of `posixpath.normpath`:
drop empty and `.` components, cancel `..` against a preceding
component where POSIX allows it. -/
def normstep (slashes : Nat) (acc : List PyStr) (comp : PyStr) : List PyStr :=
  if comp = [] ∨ comp = ['.'] then acc
  else if comp ≠ ['.', '.'] ∨ (slashes = 0 ∧ acc = []) ∨ acc.getLast? = some ['.', '.'] then
    acc ++ [comp]
  else acc.dropLast

/-- `posixpath.normpath` (the pure-Python definition). -/
def normpath (p : PyStr) : PyStr :=
  if p = [] then ['.']
  else
    let slashes := initialSlashes p
    let comps := (pysplit '/' p).foldl (normstep slashes) []
    let res := List.replicate slashes '/' ++ pyjoin ['/'] comps
    if res = [] then ['.'] else res

/-- `posixpath.dirname`: everything up to the last `/`, with trailing
slashes stripped unless the head is all slashes. -/
def os_path_dirname (p : PyStr) : PyStr :=
  let i := p.length - (p.reverse.takeWhile (fun x => x != '/')).length
  let head := p.take i
  if head ≠ [] ∧ head.any (fun x => x != '/') then
    (head.reverse.dropWhile (fun x => x == '/')).reverse
  else head

/-- `posixpath.join` for two components. -/
def os_path_join (a b : PyStr) : PyStr :=
  if b.head? = some '/' then b
  else if a = [] ∨ endsWithSlash a then a ++ b
  else a ++ '/' :: b

/-- `posixpath.abspath`, with the process working directory passed
explicitly: join against the working directory when relative, then
normalize. -/
def os_path_abspath (cwd p : PyStr) : PyStr :=
  if p.head? = some '/' then normpath p else normpath (os_path_join cwd p)

/-- The path component extracted by `urllib.parse.urlsplit` from an
origin-form request target (no scheme, no authority): the target up to
the first `?` or `#`. -/
def urlsplit_path (s : PyStr) : PyStr := splitOnce '?' (splitOnce '#' s)

/-- The body of the component loop of `translate_path`: a component
with a directory part (`os.path.dirname(word)` truthy) or equal to
`os.curdir`/`os.pardir` is ignored, any other is joined onto the path
built so far. -/
def translate_step (acc w : PyStr) : PyStr :=
  if os_path_dirname w ≠ [] ∨ w = ['.'] ∨ w = ['.', '.'] then acc
  else os_path_join acc w

/-- `SimpleHTTPRequestHandler.translate_path`: strip query and
fragment, record an explicit trailing slash, percent-decode, normalize,
then rebuild the path under `directory` keeping only components that
are plain names (dropping empties, `.`, `..`, and anything with a
directory part). -/
def translate_path (directory path : PyStr) : PyStr :=
  let p1 := splitOnce '?' path
  let p2 := splitOnce '#' p1
  let trailing := endsWithSlash (rstrip p2)
  let p3 := unquote p2
  let p4 := normpath p3
  let words := (pysplit '/' p4).filter (fun w => !w.isEmpty)
  let out := words.foldl translate_step directory
  if trailing then out ++ ['/'] else out

/-- The filesystem, abstracted as the `os` calls the handler performs:
`isDir`/`isFile` mirror `os.path.isdir`/`os.path.isfile`, `readFile`
returns the on-disk bytes when `open(path, 'rb')` succeeds and `none`
when it raises `OSError`, and `listDir` mirrors `os.listdir` with
`none` for an `OSError`. -/
structure PyFS where
  isDir : PyStr → Bool
  isFile : PyStr → Bool
  readFile : PyStr → Option (List Nat)
  listDir : PyStr → Option (List PyStr)

/-- An HTTP GET request as the handler sees it: the request target
(`self.path`) plus whether it carries an `If-Modified-Since` header
that parses and is at least the file's modification time (the
browser-cache branch of `send_head`). -/
structure Request where
  path : PyStr
  imsNotModified : Bool

/-- The request line as it appears in the log summary (the handler in
this repository serves `HTTP/1.1` GET requests). -/
def requestline (req : Request) : PyStr :=
  pstr "GET " ++ req.path ++ pstr " HTTP/1.1"

/-- What a GET request resolves to: a file's bytes (200), a generated
directory listing (200), a redirect adding a trailing slash (301), a
not-modified reply (304), or a not-found error reply (404). -/
inductive GetOutcome where
  | serveFile (fsPath : PyStr) (contents : List Nat)
  | serveListing (dirPath : PyStr) (entries : List PyStr)
  | redirect
  | notModified
  | notFound
  deriving DecidableEq, Repr

/-- The overridden `Handler.log_message` of `server.py`: it prints one
line `[<timestamp>] <message>`. -/
def handler_log_line (ts msg : PyStr) : PyStr :=
  '[' :: ts ++ pstr "] " ++ msg

/-- The message `BaseHTTPRequestHandler.log_request` passes to
`log_message`: `"<requestline>" <code> -`. -/
def request_summary (req : Request) (code : Nat) : PyStr :=
  '"' :: requestline req ++ pstr "\" " ++ Nat.toDigits 10 code ++ pstr " -"

/-- The message `send_error` passes to `log_error` (which forwards to
`log_message`): `code <code>, message <msg>`. -/
def error_summary (code : Nat) (msg : PyStr) : PyStr :=
  pstr "code " ++ Nat.toDigits 10 code ++ pstr ", message " ++ msg

/-- Logging effect of `send_error`: the error line, then (via
`send_response` inside `send_error`) the request-summary line. -/
def send_error_logs {σ : Type} (logger : PyStr → σ → σ) (ts : PyStr) (req : Request)
    (code : Nat) (msg : PyStr) (s : σ) : σ :=
  logger (handler_log_line ts (request_summary req code))
    (logger (handler_log_line ts (error_summary code msg)) s)

/-- Logging effect of `send_response`: one request-summary line. -/
def send_response_logs {σ : Type} (logger : PyStr → σ → σ) (ts : PyStr) (req : Request)
    (code : Nat) (s : σ) : σ :=
  logger (handler_log_line ts (request_summary req code)) s

/-- The tail of `SimpleHTTPRequestHandler.send_head` once a candidate
file path is fixed (after directory handling): reject a trailing
slash with 404, open the file (404 on `OSError`), answer 304 for a
satisfied `If-Modified-Since`, otherwise 200 with the file's bytes. -/
def serve_file {σ : Type} (logger : PyStr → σ → σ) (fs : PyFS) (req : Request)
    (ts : PyStr) (path : PyStr) (s : σ) : GetOutcome × σ :=
  if endsWithSlash path then
    (.notFound, send_error_logs logger ts req 404 (pstr "File not found") s)
  else
    match fs.readFile path with
    | none => (.notFound, send_error_logs logger ts req 404 (pstr "File not found") s)
    | some bs =>
      if req.imsNotModified then (.notModified, send_response_logs logger ts req 304 s)
      else (.serveFile path bs, send_response_logs logger ts req 200 s)

/-- `do_GET`/`send_head` of `SimpleHTTPRequestHandler`, specialized to
this repository's `Handler` (serving directory fixed, `log_message`
overridden). The log sink is an explicit state transformer `logger`
applied exactly at the source's logging sites; `ts` is the value of
`log_date_time_string()`. -/
def do_GET {σ : Type} (logger : PyStr → σ → σ) (fs : PyFS) (directory : PyStr)
    (req : Request) (ts : PyStr) (s : σ) : GetOutcome × σ :=
  let path := translate_path directory req.path
  if fs.isDir path then
    if ¬ endsWithSlash (urlsplit_path req.path) then
      (.redirect, send_response_logs logger ts req 301 s)
    else if fs.isFile (os_path_join path (pstr "index.html")) then
      serve_file logger fs req ts (os_path_join path (pstr "index.html")) s
    else if fs.isFile (os_path_join path (pstr "index.htm")) then
      serve_file logger fs req ts (os_path_join path (pstr "index.htm")) s
    else
      match fs.listDir path with
      | some entries => (.serveListing path entries, send_response_logs logger ts req 200 s)
      | none =>
        (.notFound, send_error_logs logger ts req 404 (pstr "No permission to list directory") s)
  else serve_file logger fs req ts path s

/-- The response part of handling a GET request (the log sink cannot be
observed in it). -/
def do_GET_outcome (fs : PyFS) (directory : PyStr) (req : Request) : GetOutcome :=
  (@do_GET Unit (fun _ s => s) fs directory req [] ()).1

/-- The log lines, in order, emitted while handling one GET request. -/
def do_GET_logs (fs : PyFS) (directory : PyStr) (req : Request) (ts : PyStr) : List PyStr :=
  (@do_GET (List PyStr) (fun l s => s ++ [l]) fs directory req ts []).2

/-- HTTP status code of an outcome. -/
def statusOf : GetOutcome → Nat
  | .serveFile _ _ => 200
  | .serveListing _ _ => 200
  | .redirect => 301
  | .notModified => 304
  | .notFound => 404

/-- The file bytes carried by an outcome's body (generated pages —
listings, error pages — carry no file bytes). -/
def bodyOf : GetOutcome → Option (List Nat)
  | .serveFile _ bs => some bs
  | _ => none

/-- A run of the serve loop over a sequence of accepted requests: each
is handled to completion, none affects the server's ability to answer
the next. -/
def handle_requests (fs : PyFS) (directory : PyStr) (reqs : List Request) : List GetOutcome :=
  reqs.map (do_GET_outcome fs directory)

/-- `PORT = 5500` of `server.py`. -/
def PORT : Nat := 5500

/-- `DIRECTORY = os.path.dirname(os.path.abspath(__file__))` of
`server.py`, with the working directory and script path explicit. -/
def DIRECTORY (cwd scriptPath : PyStr) : PyStr :=
  os_path_dirname (os_path_abspath cwd scriptPath)

/-- The server's immutable startup configuration. -/
structure ServerConfig where
  port : Nat
  directory : PyStr

/-- The configuration `server.py` fixes at startup: the hardcoded port
and the directory of the script; no command-line argument and no
environment variable enters it. -/
def server_config (cwd scriptPath : PyStr) : ServerConfig :=
  { port := PORT, directory := DIRECTORY cwd scriptPath }

/-- The address `socketserver.TCPServer(("", PORT), Handler)` binds:
empty host (all interfaces) and the hardcoded port. -/
def bind_address : PyStr × Nat := ([], PORT)

/-- The startup line `Server started at http://localhost:{PORT}`. -/
def started_message : PyStr :=
  pstr "Server started at http://localhost:" ++ Nat.toDigits 10 PORT

/-- The line printed when the serve loop is interrupted. -/
def stopped_message : PyStr := pstr "Server stopped."

/-- The environment a run of `run_server` meets: the directory listing
printed at startup, whether constructing `TCPServer` raises `OSError`
(port in use / permission denied, with the interpreter's diagnostic
text), and whether a `KeyboardInterrupt` is delivered while
`serve_forever()` runs — the only way that call returns. -/
structure Env where
  listing : List PyStr
  bindError : Option PyStr
  interruptDuringServe : Bool

/-- Observable result of a terminated process: standard-output lines,
exit status, the uncaught-exception diagnostic the interpreter printed
to standard error (if any), and whether the listening socket was
closed. -/
structure ProcResult where
  stdout : List PyStr
  exitCode : Nat
  diagnostic : Option PyStr
  socketClosed : Bool

/-- `run_server` of `server.py`, run as `python server.py`: print the
directory banner and listing; construct the `TCPServer` — an `OSError`
there is uncaught, so the interpreter prints a traceback diagnostic
and exits with status 1; otherwise serve until a `KeyboardInterrupt`
lands in `serve_forever()`, which the `try` catches, printing the
stopped message; the `with` block then closes the socket and the
script ends with status 0. Without an interrupt `serve_forever()`
never returns (`none`: the process does not terminate). -/
def run_server (directory : PyStr) (env : Env) : Option ProcResult :=
  let banner := (pstr "Starting server in directory: " ++ directory) ::
    pstr "Files in directory:" :: env.listing.map (fun f => pstr "  " ++ f)
  match env.bindError with
  | some msg =>
    some { stdout := banner, exitCode := 1, diagnostic := some msg, socketClosed := false }
  | none =>
    if env.interruptDuringServe then
      some { stdout := banner ++ [started_message, stopped_message],
             exitCode := 0, diagnostic := none, socketClosed := true }
    else none

/-- A character that every stage of `translate_path` leaves in place:
not a separator, not query/fragment punctuation, not a percent escape,
not whitespace. -/
def plainChar (c : Char) : Prop :=
  c ≠ '/' ∧ c ≠ '?' ∧ c ≠ '#' ∧ c ≠ '%' ∧ isPySpace c = false

instance (c : Char) : Decidable (plainChar c) := by unfold plainChar; infer_instance

/-- A relative-path component that names a plain directory entry. -/
def goodComp (w : PyStr) : Prop :=
  w ≠ [] ∧ w ≠ ['.'] ∧ w ≠ ['.', '.'] ∧ ∀ c ∈ w, plainChar c

instance (w : PyStr) : Decidable (goodComp w) := by unfold goodComp; infer_instance

/-- A root directory in the form `DIRECTORY` takes outside the
filesystem root: nonempty, no trailing slash. -/
def goodRoot (d : PyStr) : Prop := d ≠ [] ∧ endsWithSlash d = false

instance (d : PyStr) : Decidable (goodRoot d) := by unfold goodRoot; infer_instance

/-- The request target naming the file `w1/…/wn` relative to the root:
`/w1/…/wn`. -/
def reqPathOf (ws : List PyStr) : PyStr := '/' :: pyjoin ['/'] ws

/-- The filesystem path of `w1/…/wn` under `d`, component-wise
`os.path.join`. -/
def joinUnder (d : PyStr) (ws : List PyStr) : PyStr := ws.foldl os_path_join d

/-- A filename free of separators and of the special entries `.` and
`..`. -/
def simpleName (w : PyStr) : Prop := w ≠ [] ∧ '/' ∉ w ∧ w ≠ ['.'] ∧ w ≠ ['.', '.']

instance (w : PyStr) : Decidable (simpleName w) := by unfold simpleName; infer_instance

/-- `p` lies at or below the root `d`: it is `d` followed by
slash-separated simple names. -/
def underRootCore (d p : PyStr) : Prop :=
  ∃ ss : List PyStr, (∀ w ∈ ss, simpleName w) ∧
    p = d ++ (ss.map (fun w => '/' :: w)).flatten

/-- `p` lies at or below the root `d`, allowing one trailing slash
(the form `translate_path` produces). -/
def underRoot (d p : PyStr) : Prop :=
  underRootCore d p ∨ ∃ q, underRootCore d q ∧ p = q ++ ['/']

/-- Filesystem with one readable file `/srv/a.txt`, used as concrete
input for several witnesses. -/
def fsOneFile : PyFS :=
  { isDir := fun p => p == pstr "/srv"
    isFile := fun _ => false
    readFile := fun p => if p == pstr "/srv/a.txt" then some [104, 105] else none
    listDir := fun _ => none }

/-- Completely empty filesystem (every call fails). -/
def fsEmpty : PyFS :=
  { isDir := fun _ => false
    isFile := fun _ => false
    readFile := fun _ => none
    listDir := fun _ => none }

/-- Filesystem with one readable file at `/srv/a.txt` and a root
directory `/srv`; concrete input for traversal examples. -/
def fsTraversal : PyFS :=
  { isDir := fun p => p == pstr "/srv"
    isFile := fun _ => false
    readFile := fun p => if p == pstr "/srv/a.txt" then some [7, 8, 9] else none
    listDir := fun _ => none }

/-- Environment in which constructing the `TCPServer` raises `OSError`
(the port is already bound). -/
def envBindFail : Env :=
  { listing := [pstr "index.html"]
    bindError := some (pstr "OSError: [Errno 98] Address already in use")
    interruptDuringServe := false }

/-- Environment in which the bind succeeds and a `KeyboardInterrupt`
arrives while `serve_forever()` runs. -/
def envInterrupt : Env :=
  { listing := [pstr "index.html"], bindError := none, interruptDuringServe := true }

/-- Refinement of `PyFS` modelling the post-open error sites of
`send_head`/`do_GET` that `PyFS.readFile` alone cannot express:
`fstatOk path` is whether `os.fstat(f.fileno())` succeeds after a
successful `open` of `path` (a failure is re-raised by the
`except: f.close(); raise` in `send_head`), and `copyOk path` is
whether the read side of `shutil.copyfileobj` succeeds while the body
of `path` is being copied to the client in `do_GET` (a failure
propagates uncaught). `fs.readFile path = some bs` continues to mean
that `open(path, 'rb')` succeeds and `bs` are the on-disk bytes. -/
structure PyFSio where
  fs : PyFS
  fstatOk : PyStr → Bool
  copyOk : PyStr → Bool

/-- Result of one GET request in the refined model: a completed
response as in `GetOutcome`, or a request aborted by an uncaught
`OSError` — before any status line was sent (`os.fstat` raised), or
after the 200 status line but before the whole body was written
(`copyfile` raised). Either way `socketserver` catches the exception
in `handle_error`, prints a traceback, drops the connection, and keeps
serving; no HTTP error status is produced for that request. -/
inductive GetResult where
  | ok (out : GetOutcome)
  | abortedNoStatus (fsPath : PyStr)
  | abortedMidBody (fsPath : PyStr) (contents : List Nat)
  deriving DecidableEq, Repr

/-- Refinement of `serve_file` (the tail of `send_head` plus the
`copyfile` phase of `do_GET`) including the post-open error sites, in
source order: trailing-slash check (404), `open` (404 on `OSError`),
`os.fstat` (re-raised on failure: aborted, no status line),
`If-Modified-Since` (304), `send_response(200)` then `copyfile`
(uncaught on read failure: aborted after the 200 line, body cut
short). -/
def serve_file_io (io : PyFSio) (req : Request) (path : PyStr) : GetResult :=
  if endsWithSlash path then .ok .notFound
  else
    match io.fs.readFile path with
    | none => .ok .notFound
    | some bs =>
      if io.fstatOk path then
        if req.imsNotModified then .ok .notModified
        else if io.copyOk path then .ok (.serveFile path bs)
        else .abortedMidBody path bs
      else .abortedNoStatus path

/-- Refinement of `do_GET` over `PyFSio`: identical directory handling,
with `serve_file_io` in place of `serve_file` at the three file-serving
sites. -/
def do_GET_io (io : PyFSio) (directory : PyStr) (req : Request) : GetResult :=
  let path := translate_path directory req.path
  if io.fs.isDir path then
    if ¬ endsWithSlash (urlsplit_path req.path) then .ok .redirect
    else if io.fs.isFile (os_path_join path (pstr "index.html")) then
      serve_file_io io req (os_path_join path (pstr "index.html"))
    else if io.fs.isFile (os_path_join path (pstr "index.htm")) then
      serve_file_io io req (os_path_join path (pstr "index.htm"))
    else
      match io.fs.listDir path with
      | some entries => .ok (.serveListing path entries)
      | none => .ok .notFound
  else serve_file_io io req path

/-- The HTTP status line a request's handling produced: `none` when the
request was aborted before any status line (`os.fstat` raised); for an
abort during the body copy a 200 line had already been sent, and no
error status follows in any abort case. -/
def resultStatus : GetResult → Option Nat
  | .ok out => some (statusOf out)
  | .abortedNoStatus _ => none
  | .abortedMidBody _ _ => some 200

/-- `socketserver`'s request loop over the refined model:
`process_request` is wrapped so that an exception escaping the handler
reaches `handle_error`, which prints a traceback and returns — an
aborted request never stops the loop, so every accepted request is
processed. -/
def handle_requests_io (io : PyFSio) (directory : PyStr) (reqs : List Request) :
    List GetResult :=
  reqs.map (do_GET_io io directory)

/-- Refined filesystem with no post-open errors and nothing on disk. -/
def ioEmpty : PyFSio :=
  { fs := fsEmpty, fstatOk := fun _ => true, copyOk := fun _ => true }

/-- Refined filesystem where `/srv/a.txt` opens successfully but
`os.fstat` then raises (e.g. the block device errors out). -/
def ioFstatFail : PyFSio :=
  { fs :=
      { isDir := fun p => p == pstr "/srv"
        isFile := fun _ => false
        readFile := fun p => if p == pstr "/srv/a.txt" then some [1, 2] else none
        listDir := fun _ => none }
    fstatOk := fun _ => false
    copyOk := fun _ => true }

-- ## Basic string lemmas

theorem takeWhile_all {p : Char → Bool} {l : PyStr} (h : ∀ x ∈ l, p x = true) :
    l.takeWhile p = l := by
  induction l with
  | nil => rfl
  | cons x xs ih =>
    rw [List.takeWhile_cons, h x (List.mem_cons_self x xs)]
    exact congrArg (x :: ·) (ih fun y hy => h y (List.mem_cons_of_mem x hy))

theorem splitOnce_eq_self {c : Char} {s : PyStr} (h : ∀ x ∈ s, x ≠ c) :
    splitOnce c s = s := by
  unfold splitOnce
  exact takeWhile_all fun x hx => by simpa using h x hx

theorem rstrip_eq_self {s : PyStr} {x : Char} (h : s.getLast? = some x)
    (hx : isPySpace x = false) : rstrip s = s := by
  unfold rstrip
  have hrev : s.reverse.head? = some x := by rw [List.head?_reverse, h]
  match hr : s.reverse with
  | [] => rw [hr] at hrev; simp at hrev
  | y :: t =>
    rw [hr] at hrev
    have hyx : y = x := by simpa using hrev
    have hs : s = (y :: t).reverse := by rw [← hr, List.reverse_reverse]
    rw [List.dropWhile_cons, hyx, hx]
    simp only [Bool.false_eq_true, if_false]
    rw [← hyx]
    exact hs.symm

theorem endsWithSlash_eq_false {s : PyStr} {x : Char} (h : s.getLast? = some x)
    (hx : x ≠ '/') : endsWithSlash s = false := by
  unfold endsWithSlash
  rw [h]
  simpa using hx

theorem unquote_eq_self {s : PyStr} (h : ∀ x ∈ s, x ≠ '%') : unquote s = s := by
  induction s using unquote.induct with
  | case1 => rfl
  | case2 c => rfl
  | case3 c c1 => rfl
  | case4 c c1 c2 rest hcond ih =>
    exact absurd hcond.1 (h c (by simp))
  | case5 c c1 c2 rest hcond ih =>
    rw [unquote, if_neg hcond]
    exact congrArg (c :: ·) (ih fun y hy => h y (List.mem_cons_of_mem c hy))

-- ## pysplit / pyjoin lemmas

theorem pyjoin_cons_cons (sep w u : PyStr) (t : List PyStr) :
    pyjoin sep (w :: u :: t) = w ++ sep ++ pyjoin sep (u :: t) := rfl

theorem pysplit_ne_nil (c : Char) (s : PyStr) : pysplit c s ≠ [] := by
  induction s with
  | nil => simp [pysplit]
  | cons x xs ih =>
    rw [pysplit]
    split
    · simp
    · match h : pysplit c xs with
      | [] => exact absurd h ih
      | r :: rs => simp

theorem pysplit_cons_sep (c : Char) (s : PyStr) :
    pysplit c (c :: s) = [] :: pysplit c s := by
  rw [pysplit, if_pos rfl]

theorem pysplit_append_no_sep {c : Char} {w : PyStr} (hw : ∀ x ∈ w, x ≠ c) (s : PyStr) :
    pysplit c (w ++ s) = (pysplit c s).modifyHead (w ++ ·) := by
  induction w with
  | nil =>
    match h : pysplit c s with
    | [] => exact absurd h (pysplit_ne_nil c s)
    | r :: rs => simp
  | cons x w' ih =>
    have hx : x ≠ c := hw x (List.mem_cons_self x w')
    have ih' := ih fun y hy => hw y (List.mem_cons_of_mem x hy)
    rw [List.cons_append, pysplit, if_neg hx, ih']
    match h : pysplit c s with
    | [] => exact absurd h (pysplit_ne_nil c s)
    | r :: rs => simp

theorem pysplit_no_sep {c : Char} {w : PyStr} (hw : ∀ x ∈ w, x ≠ c) :
    pysplit c w = [w] := by
  have := pysplit_append_no_sep hw []
  simpa [pysplit] using this

theorem pysplit_pyjoin {c : Char} {ws : List PyStr} (h1 : ws ≠ [])
    (h2 : ∀ w ∈ ws, ∀ x ∈ w, x ≠ c) : pysplit c (pyjoin [c] ws) = ws := by
  induction ws with
  | nil => exact absurd rfl h1
  | cons w t ih =>
    match t with
    | [] => exact pysplit_no_sep (h2 w (List.mem_cons_self w []))
    | u :: t' =>
      rw [pyjoin_cons_cons, List.append_assoc, List.singleton_append,
        pysplit_append_no_sep (h2 w (List.mem_cons_self w (u :: t'))),
        pysplit_cons_sep]
      rw [ih (by simp) fun v hv => h2 v (List.mem_cons_of_mem w hv)]
      simp

theorem mem_pyjoin {c : Char} {ws : List PyStr} {x : Char}
    (hx : x ∈ pyjoin [c] ws) : x = c ∨ ∃ w ∈ ws, x ∈ w := by
  induction ws with
  | nil => simp [pyjoin] at hx
  | cons w t ih =>
    match t with
    | [] =>
      right; exact ⟨w, List.mem_cons_self w [], by simpa [pyjoin] using hx⟩
    | u :: t' =>
      rw [pyjoin_cons_cons] at hx
      simp only [List.mem_append, List.mem_cons] at hx
      rcases hx with (hw | hc) | hrest
      · right; exact ⟨w, by simp, hw⟩
      · left; simpa using hc
      · rcases ih (by simpa using hrest) with h | ⟨v, hv, hxv⟩
        · exact Or.inl h
        · exact Or.inr ⟨v, List.mem_cons_of_mem w hv, hxv⟩

theorem pyjoin_ne_nil {c : Char} {ws : List PyStr} (h1 : ws ≠ [])
    (h2 : ∀ w ∈ ws, w ≠ []) : pyjoin [c] ws ≠ [] := by
  match ws with
  | [w] => simpa [pyjoin] using h2 w (by simp)
  | w :: u :: t =>
    rw [pyjoin_cons_cons]
    intro hc
    simp at hc

theorem pyjoin_head_mem {c : Char} {w : PyStr} {t : List PyStr} (hw : w ≠ []) :
    ∃ y s, pyjoin [c] (w :: t) = y :: s ∧ y ∈ w := by
  match w, hw with
  | x :: w', _ =>
    match t with
    | [] => exact ⟨x, w', by simp [pyjoin], by simp⟩
    | u :: t' =>
      refine ⟨x, w' ++ [c] ++ pyjoin [c] (u :: t'), ?_, by simp⟩
      rw [pyjoin_cons_cons]
      simp

theorem pyjoin_getLast_mem {c : Char} {ws : List PyStr} (h1 : ws ≠ [])
    (h2 : ∀ w ∈ ws, w ≠ []) :
    ∃ x, (pyjoin [c] ws).getLast? = some x ∧ ∃ w ∈ ws, x ∈ w := by
  induction ws with
  | nil => exact absurd rfl h1
  | cons w t ih =>
    match t with
    | [] =>
      have hw : w ≠ [] := h2 w (by simp)
      refine ⟨w.getLast hw, ?_, w, by simp, List.getLast_mem hw⟩
      simp [pyjoin, List.getLast?_eq_getLast_of_ne_nil hw]
    | u :: t' =>
      obtain ⟨x, hlast, v, hv, hxv⟩ := ih (by simp) fun v hv => h2 v (List.mem_cons_of_mem w hv)
      refine ⟨x, ?_, v, List.mem_cons_of_mem w hv, hxv⟩
      rw [pyjoin_cons_cons, List.append_assoc,
        List.getLast?_append_of_ne_nil _ (by simp),
        List.getLast?_append_of_ne_nil _
          (pyjoin_ne_nil (by simp) fun v hv => h2 v (List.mem_cons_of_mem w hv))]
      exact hlast

-- ## plainChar / goodComp helpers

theorem goodComp_no_slash {w : PyStr} (h : goodComp w) : ∀ x ∈ w, x ≠ '/' :=
  fun x hx => (h.2.2.2 x hx).1

theorem goodComp_ne_nil {w : PyStr} (h : goodComp w) : w ≠ [] := h.1

-- ## dirname lemmas

theorem os_path_dirname_eq_nil {w : PyStr} (h : ∀ x ∈ w, x ≠ '/') :
    os_path_dirname w = [] := by
  unfold os_path_dirname
  have hall : ∀ x ∈ w.reverse, (x != '/') = true := by
    intro x hx
    simpa using h x (List.mem_reverse.mp hx)
  rw [takeWhile_all hall]
  simp

theorem dropWhile_ne_nil_of_exists {p : Char → Bool} {l : PyStr}
    (h : ∃ x ∈ l, p x = false) : l.dropWhile p ≠ [] := by
  induction l with
  | nil => simp at h
  | cons y t ih =>
    rw [List.dropWhile_cons]
    obtain ⟨x, hx, hpx⟩ := h
    rcases List.mem_cons.mp hx with rfl | hxt
    · rw [hpx]; simp
    · split
      · exact ih ⟨x, hxt, hpx⟩
      · simp

theorem os_path_dirname_ne_nil {w : PyStr} (hs : '/' ∈ w) :
    os_path_dirname w ≠ [] := by
  unfold os_path_dirname
  have hlt : (w.reverse.takeWhile (fun x => x != '/')).length < w.length := by
    have hpre := List.takeWhile_prefix (l := w.reverse) (fun x => x != '/')
    have hle : (w.reverse.takeWhile (fun x => x != '/')).length ≤ w.length := by
      simpa using hpre.length_le
    rcases lt_or_eq_of_le hle with h | h
    · exact h
    · exfalso
      have hself : w.reverse.takeWhile (fun x => x != '/') = w.reverse :=
        hpre.eq_of_length (by simpa using h)
      have hm : ('/' : Char) ∈ w.reverse := List.mem_reverse.mpr hs
      have := List.mem_takeWhile_imp (l := w.reverse) (p := fun x => x != '/')
        (by rw [hself]; exact hm)
      simp at this
  have hw : w ≠ [] := by rintro rfl; simp at hs
  have htake : w.take (w.length - (w.reverse.takeWhile (fun x => x != '/')).length) ≠ [] := by
    apply List.length_pos.mp
    rw [List.length_take]
    have : 0 < w.length := List.length_pos.mpr hw
    omega
  dsimp only
  split
  · next hcond =>
    obtain ⟨x, hx, hpx⟩ := List.any_eq_true.mp hcond.2
    rw [Ne, List.reverse_eq_nil_iff]
    apply dropWhile_ne_nil_of_exists
    exact ⟨x, List.mem_reverse.mpr hx, by simpa using hpx⟩
  · next hcond => exact htake

-- ## normpath on clean absolute paths

theorem initialSlashes_clean {y : Char} {t : PyStr} (hy : y ≠ '/') :
    initialSlashes ('/' :: y :: t) = 1 := by
  unfold initialSlashes
  rw [if_pos (by simp), if_neg]
  intro hc
  have hpre := List.cons_prefix_cons.mp hc.1
  exact hy ((List.cons_prefix_cons.mp hpre.2).1).symm

theorem normstep_good {k : Nat} {acc : List PyStr} {w : PyStr} (hw : goodComp w) :
    normstep k acc w = acc ++ [w] := by
  unfold normstep
  rw [if_neg (by push_neg; exact ⟨hw.1, hw.2.1⟩), if_pos (Or.inl hw.2.2.1)]

theorem foldl_normstep_good {k : Nat} {ws : List PyStr} (h : ∀ w ∈ ws, goodComp w) :
    ∀ acc, ws.foldl (normstep k) acc = acc ++ ws := by
  induction ws with
  | nil => simp
  | cons w t ih =>
    intro acc
    rw [List.foldl_cons, normstep_good (h w (by simp)),
      ih (fun v hv => h v (by simp [hv])) (acc ++ [w])]
    simp

theorem normpath_clean {w : PyStr} {t : List PyStr} (h2 : ∀ v ∈ w :: t, goodComp v) :
    normpath ('/' :: pyjoin ['/'] (w :: t)) = '/' :: pyjoin ['/'] (w :: t) := by
  obtain ⟨y, s, hys, hyw⟩ := pyjoin_head_mem (c := '/') (goodComp_ne_nil (h2 w (by simp)))
  have hy : y ≠ '/' := goodComp_no_slash (h2 w (by simp)) y hyw
  have hsl : initialSlashes ('/' :: pyjoin ['/'] (w :: t)) = 1 := by
    rw [hys]; exact initialSlashes_clean hy
  have hsplit : pysplit '/' ('/' :: pyjoin ['/'] (w :: t)) = [] :: (w :: t) := by
    rw [pysplit_cons_sep,
      pysplit_pyjoin (by simp) (fun v hv x hx => goodComp_no_slash (h2 v hv) x hx)]
  have hfold : (([] : PyStr) :: (w :: t)).foldl (normstep 1) [] = w :: t := by
    rw [List.foldl_cons]
    have h0 : normstep 1 [] [] = [] := by unfold normstep; rw [if_pos (Or.inl rfl)]
    rw [h0, foldl_normstep_good h2 []]
    simp
  unfold normpath
  rw [if_neg (by simp)]
  dsimp only
  rw [hsl, hsplit, hfold]
  rw [if_neg (by simp)]
  simp

-- ## translate_path on clean request paths

theorem foldl_translate_step_good {ws : List PyStr} (h : ∀ w ∈ ws, goodComp w) :
    ∀ d, ws.foldl translate_step d = joinUnder d ws := by
  induction ws with
  | nil => intro d; rfl
  | cons w t ih =>
    intro d
    have hw := h w (by simp)
    have hd0 : os_path_dirname w = [] := os_path_dirname_eq_nil (goodComp_no_slash hw)
    rw [List.foldl_cons]
    have hstep : translate_step d w = os_path_join d w := by
      unfold translate_step
      rw [if_neg (by simp [hd0, hw.2.1, hw.2.2.1])]
    rw [hstep, ih (fun v hv => h v (by simp [hv]))]
    simp [joinUnder]

theorem translate_path_clean {d : PyStr} {ws : List PyStr} (h1 : ws ≠ [])
    (h2 : ∀ w ∈ ws, goodComp w) :
    translate_path d (reqPathOf ws) = joinUnder d ws := by
  obtain ⟨w, t, rfl⟩ := List.exists_cons_of_ne_nil h1
  have hchars : ∀ x ∈ reqPathOf (w :: t), x = '/' ∨ plainChar x := by
    intro x hx
    rcases List.mem_cons.mp hx with rfl | hx'
    · exact Or.inl rfl
    · rcases mem_pyjoin hx' with h | ⟨v, hv, hxv⟩
      · exact Or.inl h
      · exact Or.inr ((h2 v hv).2.2.2 x hxv)
  have hq : splitOnce '?' (reqPathOf (w :: t)) = reqPathOf (w :: t) :=
    splitOnce_eq_self fun x hx => by
      rcases hchars x hx with rfl | hp
      · decide
      · exact hp.2.1
  have hh : splitOnce '#' (reqPathOf (w :: t)) = reqPathOf (w :: t) :=
    splitOnce_eq_self fun x hx => by
      rcases hchars x hx with rfl | hp
      · decide
      · exact hp.2.2.1
  obtain ⟨x, hlast, v, hv, hxv⟩ :=
    @pyjoin_getLast_mem '/' (w :: t) (by simp)
      (fun v hv => goodComp_ne_nil (h2 v hv))
  have hxplain : plainChar x := (h2 v hv).2.2.2 x hxv
  obtain ⟨y, s, hys, hyw⟩ := pyjoin_head_mem (c := '/') (t := t) (goodComp_ne_nil (h2 w (by simp)))
  have hlast2 : (reqPathOf (w :: t)).getLast? = some x := by
    unfold reqPathOf
    rw [hys, List.getLast?_cons_cons, ← hys, hlast]
  have hrstrip : rstrip (reqPathOf (w :: t)) = reqPathOf (w :: t) :=
    rstrip_eq_self hlast2 hxplain.2.2.2.2
  have hends : endsWithSlash (reqPathOf (w :: t)) = false :=
    endsWithSlash_eq_false hlast2 hxplain.1
  have hunq : unquote (reqPathOf (w :: t)) = reqPathOf (w :: t) :=
    unquote_eq_self fun z hz => by
      rcases hchars z hz with rfl | hp
      · decide
      · exact hp.2.2.2.1
  have hnorm : normpath (reqPathOf (w :: t)) = reqPathOf (w :: t) := by
    unfold reqPathOf
    exact normpath_clean h2
  have hsplitw : pysplit '/' (reqPathOf (w :: t)) = [] :: w :: t := by
    unfold reqPathOf
    rw [pysplit_cons_sep,
      pysplit_pyjoin (by simp) (fun u hu z hz => goodComp_no_slash (h2 u hu) z hz)]
  have hfilter : (([] : PyStr) :: w :: t).filter (fun u => !u.isEmpty) = w :: t := by
    have htail : (w :: t).filter (fun u => !u.isEmpty) = w :: t :=
      List.filter_eq_self.mpr fun u hu => by simpa using (h2 u hu).1
    simpa using htail
  unfold translate_path
  dsimp only
  rw [hq, hh, hrstrip, hends, hunq, hnorm, hsplitw, hfilter,
    foldl_translate_step_good h2]
  simp

-- ## joinUnder lemmas

theorem os_path_join_getLast {a w : PyStr} (hw : w ≠ []) (hslash : ∀ x ∈ w, x ≠ '/') :
    ∃ x, (os_path_join a w).getLast? = some x ∧ x ∈ w := by
  refine ⟨w.getLast hw, ?_, List.getLast_mem hw⟩
  unfold os_path_join
  have hhead : w.head? ≠ some '/' := by
    match w, hw with
    | z :: w', _ =>
      have : z ≠ '/' := hslash z (by simp)
      simpa using this
  rw [if_neg hhead]
  split
  · rw [List.getLast?_append_of_ne_nil _ hw, List.getLast?_eq_getLast_of_ne_nil hw]
  · have : a ++ '/' :: w = a ++ ['/'] ++ w := by simp
    rw [this, List.getLast?_append_of_ne_nil _ hw, List.getLast?_eq_getLast_of_ne_nil hw]

theorem joinUnder_getLast {ws : List PyStr} (h1 : ws ≠ []) (h2 : ∀ w ∈ ws, goodComp w) :
    ∀ d, ∃ x, (joinUnder d ws).getLast? = some x ∧ plainChar x := by
  induction ws with
  | nil => exact absurd rfl h1
  | cons w t ih =>
    intro d
    match t with
    | [] =>
      obtain ⟨x, hlast, hxw⟩ :=
        os_path_join_getLast (a := d) (goodComp_ne_nil (h2 w (by simp)))
          (goodComp_no_slash (h2 w (by simp)))
      exact ⟨x, hlast, (h2 w (by simp)).2.2.2 x hxw⟩
    | u :: t' =>
      have : joinUnder d (w :: u :: t') = joinUnder (os_path_join d w) (u :: t') := by
        simp [joinUnder]
      rw [this]
      exact ih (by simp) (fun v hv => h2 v (List.mem_cons_of_mem w hv)) (os_path_join d w)

theorem joinUnder_not_slash {ws : List PyStr} (h1 : ws ≠ [])
    (h2 : ∀ w ∈ ws, goodComp w) (d : PyStr) :
    endsWithSlash (joinUnder d ws) = false := by
  obtain ⟨x, hlast, hx⟩ := joinUnder_getLast h1 h2 d
  exact endsWithSlash_eq_false hlast hx.1

-- ## Claims C1 and C3

/-- Claim C1: for every file that exists and is readable under the root
directory — a nonempty sequence of plain-name components whose resolved
path is not a directory and opens successfully — a plain HTTP GET
request for the file's relative path returns status 200 and a response
body byte-identical to the file's contents on disk. -/
theorem claim_c1 (fs : PyFS) (d : PyStr) (ws : List PyStr) (bs : List Nat)
    (h1 : ws ≠ []) (h2 : ∀ w ∈ ws, goodComp w)
    (hdir : fs.isDir (joinUnder d ws) = false)
    (hread : fs.readFile (joinUnder d ws) = some bs) :
    statusOf (do_GET_outcome fs d ⟨reqPathOf ws, false⟩) = 200 ∧
    bodyOf (do_GET_outcome fs d ⟨reqPathOf ws, false⟩) = some bs := by
  have htp : translate_path d (reqPathOf ws) = joinUnder d ws := translate_path_clean h1 h2
  have hends := joinUnder_not_slash h1 h2 d
  unfold do_GET_outcome do_GET
  dsimp only
  rw [htp, hdir]
  simp only [Bool.false_eq_true, if_false]
  unfold serve_file
  rw [hends]
  simp only [Bool.false_eq_true, if_false]
  rw [hread]
  simp [statusOf, bodyOf]

/-- Witness for claim C1 at a concrete filesystem, root and path. -/
theorem claim_c1_witness :
    statusOf (do_GET_outcome fsOneFile (pstr "/srv") ⟨reqPathOf [pstr "a.txt"], false⟩) = 200 ∧
    bodyOf (do_GET_outcome fsOneFile (pstr "/srv") ⟨reqPathOf [pstr "a.txt"], false⟩) =
      some [104, 105] :=
  claim_c1 fsOneFile (pstr "/srv") [pstr "a.txt"] [104, 105]
    (by decide) (by decide) (by decide) (by decide)

/-- Claim C3: for every request path that does not name an existing
file or directory under the root (the resolved path is not a directory
and cannot be opened), the server responds with status 404. -/
theorem claim_c3 (fs : PyFS) (d : PyStr) (req : Request)
    (hdir : fs.isDir (translate_path d req.path) = false)
    (hread : fs.readFile (translate_path d req.path) = none) :
    statusOf (do_GET_outcome fs d req) = 404 := by
  unfold do_GET_outcome do_GET
  dsimp only
  rw [hdir]
  simp only [Bool.false_eq_true, if_false]
  unfold serve_file
  split
  · simp [statusOf]
  · rw [hread]
    simp [statusOf]

/-- Witness for claim C3 on an empty filesystem. -/
theorem claim_c3_witness :
    statusOf (do_GET_outcome fsEmpty (pstr "/srv") ⟨pstr "/nope.txt", false⟩) = 404 :=
  claim_c3 fsEmpty (pstr "/srv") ⟨pstr "/nope.txt", false⟩ (by decide) (by decide)

-- ## underRoot invariant (C2)

theorem underRootCore_refl (d : PyStr) : underRootCore d d := ⟨[], by simp, by simp⟩

theorem underRootCore_props {d p : PyStr} (hd : goodRoot d) (h : underRootCore d p) :
    p ≠ [] ∧ endsWithSlash p = false := by
  obtain ⟨ss, hss, rfl⟩ := h
  induction ss using List.reverseRecOn with
  | nil =>
    simp only [List.map_nil, List.flatten_nil, List.append_nil]
    exact ⟨hd.1, hd.2⟩
  | append_singleton ss w ih =>
    have hw : simpleName w := hss w (by simp)
    have hflat : ((ss ++ [w]).map (fun v => '/' :: v)).flatten =
        (ss.map (fun v => '/' :: v)).flatten ++ ('/' :: w) := by
      simp
    rw [hflat]
    have hwne : w ≠ [] := hw.1
    obtain ⟨z, w', rfl⟩ := List.exists_cons_of_ne_nil hwne
    constructor
    · simp
    · have hlast : (d ++ ((ss.map (fun v => '/' :: v)).flatten ++ '/' :: z :: w')).getLast? =
          (z :: w').getLast? := by
        rw [List.getLast?_append_of_ne_nil _ (by simp),
          List.getLast?_append_of_ne_nil _ (by simp), List.getLast?_cons_cons]
      obtain ⟨x, hx, hxm⟩ : ∃ x, (z :: w').getLast? = some x ∧ x ∈ z :: w' := by
        refine ⟨(z :: w').getLast (by simp), List.getLast?_eq_getLast_of_ne_nil (by simp), ?_⟩
        exact List.getLast_mem (by simp)
      have hxs : x ≠ '/' := fun hc => hw.2.1 (hc ▸ hxm)
      exact endsWithSlash_eq_false (by rw [hlast, hx]) hxs

theorem underRootCore_join {d p w : PyStr} (hd : goodRoot d) (hp : underRootCore d p)
    (hw : simpleName w) : underRootCore d (os_path_join p w) := by
  obtain ⟨hne, hends⟩ := underRootCore_props hd hp
  obtain ⟨ss, hss, rfl⟩ := hp
  have hhead : w.head? ≠ some '/' := by
    obtain ⟨z, w', rfl⟩ := List.exists_cons_of_ne_nil hw.1
    have : z ≠ '/' := fun hc => hw.2.1 (by simp [hc])
    simpa using this
  unfold os_path_join
  rw [if_neg hhead, if_neg (by rw [not_or]; exact ⟨hne, by simp [hends]⟩)]
  refine ⟨ss ++ [w], ?_, by simp⟩
  intro v hv
  rcases List.mem_append.mp hv with hv' | hv'
  · exact hss v hv'
  · simpa using (List.mem_singleton.mp hv') ▸ hw

theorem underRoot_join {d p w : PyStr} (hd : goodRoot d) (hp : underRoot d p)
    (hw : simpleName w) : underRootCore d (os_path_join p w) := by
  rcases hp with hp | ⟨q, hq, rfl⟩
  · exact underRootCore_join hd hp hw
  · have hhead : w.head? ≠ some '/' := by
      obtain ⟨z, w', rfl⟩ := List.exists_cons_of_ne_nil hw.1
      have : z ≠ '/' := fun hc => hw.2.1 (by simp [hc])
      simpa using this
    have hends : endsWithSlash (q ++ ['/']) = true := by
      unfold endsWithSlash
      rw [List.getLast?_append_of_ne_nil _ (by simp)]
      simp
    unfold os_path_join
    rw [if_neg hhead, if_pos (Or.inr hends)]
    obtain ⟨ss, hss, rfl⟩ := hq
    refine ⟨ss ++ [w], ?_, by simp⟩
    intro v hv
    rcases List.mem_append.mp hv with hv' | hv'
    · exact hss v hv'
    · simpa using (List.mem_singleton.mp hv') ▸ hw

theorem foldl_translate_step_underRoot {d : PyStr} (hd : goodRoot d)
    (words : List PyStr) (hwords : ∀ w ∈ words, w ≠ []) :
    ∀ acc, underRootCore d acc → underRootCore d (words.foldl translate_step acc) := by
  induction words with
  | nil => exact fun acc h => h
  | cons w t ih =>
    intro acc hacc
    rw [List.foldl_cons]
    apply ih fun v hv => hwords v (List.mem_cons_of_mem w hv)
    unfold translate_step
    split
    · exact hacc
    · next hcond =>
      push_neg at hcond
      obtain ⟨hdirn, hdot, hdotdot⟩ := hcond
      have hslash : '/' ∉ w := fun hc => (os_path_dirname_ne_nil hc) hdirn
      exact underRootCore_join hd hacc ⟨hwords w (by simp), hslash, hdot, hdotdot⟩

theorem translate_path_underRoot {d : PyStr} (hd : goodRoot d) (p : PyStr) :
    underRoot d (translate_path d p) := by
  unfold translate_path
  dsimp only
  have hwords : ∀ w ∈ (pysplit '/'
      (normpath (unquote (splitOnce '#' (splitOnce '?' p))))).filter
        (fun u => !u.isEmpty), w ≠ [] := by
    intro w hw
    have := List.of_mem_filter hw
    simpa using this
  split
  · exact Or.inr ⟨_, foldl_translate_step_underRoot hd _ hwords d (underRootCore_refl d), rfl⟩
  · exact Or.inl (foldl_translate_step_underRoot hd _ hwords d (underRootCore_refl d))

-- ## serve_file inversion and claim C2

theorem serve_file_serveFile {σ : Type} {logger : PyStr → σ → σ} {fs : PyFS}
    {req : Request} {ts path : PyStr} {s : σ} {p : PyStr} {bs : List Nat}
    (h : (serve_file logger fs req ts path s).1 = .serveFile p bs) :
    p = path ∧ fs.readFile path = some bs := by
  unfold serve_file at h
  split at h
  · simp at h
  · split at h
    · simp at h
    · next bs' hread =>
      split at h
      · simp at h
      · simp at h
        exact ⟨h.1.symm, by rw [hread, h.2]⟩

theorem serve_file_no_listing {σ : Type} {logger : PyStr → σ → σ} {fs : PyFS}
    {req : Request} {ts path : PyStr} {s : σ} {p : PyStr} {es : List PyStr}
    (h : (serve_file logger fs req ts path s).1 = .serveListing p es) : False := by
  unfold serve_file at h
  split at h
  · simp at h
  · split at h
    · simp at h
    · split at h <;> simp at h

/-- Claim C2 (amended): for every request, the response never contains
content of any file (or listing of any directory) outside the root
directory: anything served comes from a path of the form
`root/w1/…/wn` where every component is a plain name (nonempty, no
separator, not `.`, not `..`). The original claim's second half — that
a request whose path contains traversal sequences always gets status
403 or 404 — is false (see the counterexample): traversal components
are silently dropped during resolution, so such a request is answered
as if they were absent (200 when the residual path names a readable
file under the root, 404 when nothing is there). -/
theorem claim_c2_amended (fs : PyFS) (d : PyStr) (req : Request) (hd : goodRoot d) :
    (∀ p bs, do_GET_outcome fs d req = .serveFile p bs →
      underRoot d p ∧ fs.readFile p = some bs) ∧
    (∀ p es, do_GET_outcome fs d req = .serveListing p es →
      underRoot d p ∧ fs.listDir p = some es) := by
  have hU : underRoot d (translate_path d req.path) := translate_path_underRoot hd req.path
  constructor
  · intro p bs h
    unfold do_GET_outcome do_GET at h
    dsimp only at h
    split at h
    · split at h
      · simp at h
      · split at h
        · obtain ⟨rfl, hread⟩ := serve_file_serveFile h
          exact ⟨Or.inl (underRoot_join hd hU (by decide)), hread⟩
        · split at h
          · obtain ⟨rfl, hread⟩ := serve_file_serveFile h
            exact ⟨Or.inl (underRoot_join hd hU (by decide)), hread⟩
          · split at h
            · simp at h
            · simp at h
    · obtain ⟨rfl, hread⟩ := serve_file_serveFile h
      exact ⟨hU, hread⟩
  · intro p es h
    unfold do_GET_outcome do_GET at h
    dsimp only at h
    split at h
    · split at h
      · simp at h
      · split at h
        · exact (serve_file_no_listing h).elim
        · split at h
          · exact (serve_file_no_listing h).elim
          · split at h
            · next hlist =>
              simp at h
              exact ⟨h.1 ▸ hU, by rw [← h.1, hlist, h.2]⟩
            · simp at h
    · exact (serve_file_no_listing h).elim

/-- Witness for claim C2 (amended): the traversal request `/../a.txt`
against root `/srv` is served from `/srv/a.txt`, inside the root. -/
theorem claim_c2_witness :
    underRoot (pstr "/srv") (pstr "/srv/a.txt") ∧
    fsTraversal.readFile (pstr "/srv/a.txt") = some [7, 8, 9] :=
  (claim_c2_amended fsTraversal (pstr "/srv") ⟨pstr "/../a.txt", false⟩ (by decide)).1
    (pstr "/srv/a.txt") [7, 8, 9] (by decide)

/-- Counterexample to claim C2 as stated: the request `/../a.txt`
contains a traversal sequence, yet the server answers 200 (serving
`/srv/a.txt`, inside the root), not 403 or 404. -/
theorem claim_c2_counterexample :
    pstr ".." <:+: pstr "/../a.txt" ∧
    statusOf (do_GET_outcome fsTraversal (pstr "/srv") ⟨pstr "/../a.txt", false⟩) = 200 ∧
    statusOf (do_GET_outcome fsTraversal (pstr "/srv") ⟨pstr "/../a.txt", false⟩) ≠ 403 ∧
    statusOf (do_GET_outcome fsTraversal (pstr "/srv") ⟨pstr "/../a.txt", false⟩) ≠ 404 :=
  ⟨⟨pstr "/", pstr "/a.txt", by decide⟩, by decide, by decide, by decide⟩

-- ## Claim C9: responses do not depend on the log sink

/-- Claim C9: logging is a pure side effect — two runs of the handler
that differ only in the log sink (its state type, its writer function,
its initial state, even the timestamp fed to the log lines) produce
identical HTTP responses for every request. -/
theorem claim_c9 {σ₁ σ₂ : Type} (logger1 : PyStr → σ₁ → σ₁) (logger2 : PyStr → σ₂ → σ₂)
    (fs : PyFS) (d : PyStr) (req : Request) (ts1 ts2 : PyStr) (s1 : σ₁) (s2 : σ₂) :
    (do_GET logger1 fs d req ts1 s1).1 = (do_GET logger2 fs d req ts2 s2).1 := by
  unfold do_GET serve_file
  dsimp only
  repeat' split
  all_goals rfl

-- ## C6 log characterization

theorem ts_infix_line (ts msg : PyStr) : ts <:+: handler_log_line ts msg := by
  refine ⟨['['], pstr "] " ++ msg, ?_⟩
  simp [handler_log_line]

theorem path_infix_summary (req : Request) (code : Nat) (ts : PyStr) :
    req.path <:+: handler_log_line ts (request_summary req code) := by
  refine ⟨('[' :: ts ++ pstr "] ") ++ ('"' :: pstr "GET "),
    pstr " HTTP/1.1" ++ pstr "\" " ++ Nat.toDigits 10 code ++ pstr " -", ?_⟩
  simp [handler_log_line, request_summary, requestline]

theorem serve_file_c6 (fs : PyFS) (req : Request) (ts path : PyStr) :
    (statusOf (@serve_file Unit (fun _ s => s) fs req [] path ()).1 ≠ 404 →
      (@serve_file (List PyStr) (fun l s => s ++ [l]) fs req ts path []).2 =
        [handler_log_line ts (request_summary req
          (statusOf (@serve_file Unit (fun _ s => s) fs req [] path ()).1))]) ∧
    (statusOf (@serve_file Unit (fun _ s => s) fs req [] path ()).1 = 404 →
      (@serve_file (List PyStr) (fun l s => s ++ [l]) fs req ts path []).2 =
        [handler_log_line ts (error_summary 404 (pstr "File not found")),
         handler_log_line ts (request_summary req 404)]) := by
  unfold serve_file send_error_logs send_response_logs
  by_cases hs : endsWithSlash path = true
  · simp [hs, statusOf]
  · rcases hr : fs.readFile path with _ | bs
    · simp [hs, hr, statusOf]
    · by_cases him : req.imsNotModified = true
      · simp [hs, hr, him, statusOf]
      · simp [hs, hr, him, statusOf]

theorem do_GET_logs_spec (fs : PyFS) (d : PyStr) (req : Request) (ts : PyStr) :
    (statusOf (do_GET_outcome fs d req) ≠ 404 →
      do_GET_logs fs d req ts =
        [handler_log_line ts (request_summary req (statusOf (do_GET_outcome fs d req)))]) ∧
    (statusOf (do_GET_outcome fs d req) = 404 →
      ∃ msg, do_GET_logs fs d req ts =
        [handler_log_line ts (error_summary 404 msg),
         handler_log_line ts (request_summary req 404)]) := by
  unfold do_GET_logs do_GET_outcome do_GET
  dsimp only
  by_cases h1 : fs.isDir (translate_path d req.path) = true
  · by_cases h2 : endsWithSlash (urlsplit_path req.path) = true
    · by_cases h3 : fs.isFile
        (os_path_join (translate_path d req.path) (pstr "index.html")) = true
      · simp only [h1, h2, h3, not_true, if_true, if_false, ite_true, ite_false]
        exact ⟨(serve_file_c6 fs req ts _).1,
          fun h404 => ⟨pstr "File not found", (serve_file_c6 fs req ts _).2 h404⟩⟩
      · by_cases h4 : fs.isFile
          (os_path_join (translate_path d req.path) (pstr "index.htm")) = true
        · simp only [h1, h2, h3, h4, not_true, if_true, if_false, ite_true, ite_false,
            Bool.false_eq_true]
          exact ⟨(serve_file_c6 fs req ts _).1,
            fun h404 => ⟨pstr "File not found", (serve_file_c6 fs req ts _).2 h404⟩⟩
        · rcases h5 : fs.listDir (translate_path d req.path) with _ | entries
          · simp only [h1, h2, h3, h4, h5, not_true, if_true, if_false, ite_true, ite_false,
              Bool.false_eq_true]
            refine ⟨fun hc => absurd ?_ hc, fun _ => ⟨pstr "No permission to list directory", ?_⟩⟩
            · simp [statusOf]
            · simp [send_error_logs]
          · simp only [h1, h2, h3, h4, h5, not_true, if_true, if_false, ite_true, ite_false,
              Bool.false_eq_true]
            refine ⟨fun _ => ?_, fun hc => absurd hc (by simp [statusOf])⟩
            simp [send_response_logs, statusOf]
    · simp only [h1, h2, not_true, if_true, if_false, ite_true, ite_false]
      refine ⟨fun _ => ?_, fun hc => absurd hc (by simp [statusOf])⟩
      simp [send_response_logs, statusOf]
  · simp only [h1, if_true, if_false, ite_true, ite_false, Bool.false_eq_true]
    exact ⟨(serve_file_c6 fs req ts _).1,
      fun h404 => ⟨pstr "File not found", (serve_file_c6 fs req ts _).2 h404⟩⟩

/-- Claim C6 (amended): every served request produces exactly one
request-summary log line — a timestamp followed by the request summary,
which contains the request path — except that a 404 response emits one
additional error log line before it (two lines in total). The original
claim's `exactly one log line` is false for error responses (see the
counterexample): `send_error` logs through `log_error` and then again
through `send_response`. -/
theorem claim_c6_amended (fs : PyFS) (d : PyStr) (req : Request) (ts : PyStr) :
    (ts <:+: handler_log_line ts (request_summary req (statusOf (do_GET_outcome fs d req)))) ∧
    (req.path <:+:
      handler_log_line ts (request_summary req (statusOf (do_GET_outcome fs d req)))) ∧
    (statusOf (do_GET_outcome fs d req) ≠ 404 →
      do_GET_logs fs d req ts =
        [handler_log_line ts (request_summary req (statusOf (do_GET_outcome fs d req)))]) ∧
    (statusOf (do_GET_outcome fs d req) = 404 →
      ∃ msg, do_GET_logs fs d req ts =
        [handler_log_line ts (error_summary 404 msg),
         handler_log_line ts (request_summary req 404)]) :=
  ⟨ts_infix_line _ _, path_infix_summary _ _ _, (do_GET_logs_spec fs d req ts).1,
    (do_GET_logs_spec fs d req ts).2⟩

/-- Witness for claim C6 (amended): a 200 response produces exactly
the one summary line. -/
theorem claim_c6_witness :
    do_GET_logs fsOneFile (pstr "/srv") ⟨reqPathOf [pstr "a.txt"], false⟩
        (pstr "02/Jan/2025 03:04:05") =
      [handler_log_line (pstr "02/Jan/2025 03:04:05")
        (request_summary ⟨reqPathOf [pstr "a.txt"], false⟩ 200)] := by
  have h := (claim_c6_amended fsOneFile (pstr "/srv") ⟨reqPathOf [pstr "a.txt"], false⟩
    (pstr "02/Jan/2025 03:04:05")).2.2.1
  have hst : statusOf (do_GET_outcome fsOneFile (pstr "/srv")
      ⟨reqPathOf [pstr "a.txt"], false⟩) = 200 := by decide
  rw [hst] at h
  exact h (by decide)

/-- Counterexample to claim C6 as stated: a request for a missing
file produces two log lines, not exactly one. -/
theorem claim_c6_counterexample :
    (do_GET_logs fsEmpty (pstr "/srv") ⟨pstr "/missing.html", false⟩
      (pstr "02/Jan/2025 03:04:05")).length = 2 ∧
    ¬ (do_GET_logs fsEmpty (pstr "/srv") ⟨pstr "/missing.html", false⟩
      (pstr "02/Jan/2025 03:04:05")).length = 1 := by decide

/-- On a run without post-open errors the refined model coincides with
the base model: every request completes with exactly the base
outcome. -/
theorem do_GET_io_eq (io : PyFSio) (d : PyStr) (req : Request)
    (h1 : ∀ p, io.fstatOk p = true) (h2 : ∀ p, io.copyOk p = true) :
    do_GET_io io d req = .ok (do_GET_outcome io.fs d req) := by
  unfold do_GET_io do_GET_outcome do_GET serve_file_io serve_file
  dsimp only
  simp only [h1, h2, if_true]
  repeat' split
  all_goals rfl

/-- Counterexample to claim C7 as stated: `/srv/a.txt` exists and opens
successfully, but the filesystem I/O error at the subsequent `os.fstat`
is re-raised out of `send_head`, so the request is aborted without any
HTTP status — no 404, 403 or 500 is returned for this filesystem
error. -/
theorem claim_c7_counterexample :
    ioFstatFail.fs.readFile (pstr "/srv/a.txt") = some [1, 2] ∧
    do_GET_io ioFstatFail (pstr "/srv") ⟨pstr "/a.txt", false⟩ =
      .abortedNoStatus (pstr "/srv/a.txt") ∧
    resultStatus (do_GET_io ioFstatFail (pstr "/srv") ⟨pstr "/a.txt", false⟩) = none := by
  decide

/-- Claim C7 (amended): filesystem errors before a response has begun
are handled within the request with an HTTP error status — a failed
`open` yields 404, and every completed response carries one of the
statuses 200, 301, 304, 404. But a filesystem I/O error after the file
has been opened is not: an `os.fstat` failure is re-raised and aborts
the request with no status line at all, and a read failure while the
body is copied aborts it after the 200 line with no error status.
Neither abort terminates the server — `socketserver` prints a
traceback and every request in a run is still processed — and only
socket-bind failure at startup makes the process exit non-zero. -/
theorem claim_c7_amended (io : PyFSio) (d : PyStr) (req : Request) (bs : List Nat)
    (reqs : List Request) (dir : PyStr) (env : Env) :
    (io.fs.isDir (translate_path d req.path) = false →
      io.fs.readFile (translate_path d req.path) = none →
      do_GET_io io d req = .ok .notFound) ∧
    (∀ out, do_GET_io io d req = .ok out →
      statusOf out ∈ ([200, 301, 304, 404] : List Nat)) ∧
    (io.fs.isDir (translate_path d req.path) = false →
      endsWithSlash (translate_path d req.path) = false →
      io.fs.readFile (translate_path d req.path) = some bs →
      io.fstatOk (translate_path d req.path) = false →
      do_GET_io io d req = .abortedNoStatus (translate_path d req.path)) ∧
    (io.fs.isDir (translate_path d req.path) = false →
      endsWithSlash (translate_path d req.path) = false →
      io.fs.readFile (translate_path d req.path) = some bs →
      io.fstatOk (translate_path d req.path) = true →
      req.imsNotModified = false →
      io.copyOk (translate_path d req.path) = false →
      do_GET_io io d req = .abortedMidBody (translate_path d req.path) bs) ∧
    (handle_requests_io io d reqs).length = reqs.length ∧
    (∀ r, run_server dir env = some r → r.exitCode ≠ 0 → env.bindError ≠ none) := by
  refine ⟨?_, ?_, ?_, ?_, by simp [handle_requests_io], ?_⟩
  · intro hdir hread
    unfold do_GET_io serve_file_io
    dsimp only
    rw [hdir]
    simp only [Bool.false_eq_true, if_false]
    split
    · rfl
    · rw [hread]
  · intro out h
    unfold do_GET_io serve_file_io at h
    dsimp only at h
    repeat' split at h
    all_goals
      first
      | (simp only [GetResult.ok.injEq] at h
         subst h
         simp [statusOf])
      | simp at h
  · intro hdir hends hread hfstat
    unfold do_GET_io serve_file_io
    dsimp only
    rw [hdir]
    simp only [Bool.false_eq_true, if_false]
    rw [hends]
    simp only [Bool.false_eq_true, if_false]
    rw [hread, hfstat]
    simp
  · intro hdir hends hread hfstat hims hcopy
    unfold do_GET_io serve_file_io
    dsimp only
    rw [hdir]
    simp only [Bool.false_eq_true, if_false]
    rw [hends]
    simp only [Bool.false_eq_true, if_false]
    rw [hread, hfstat, hims, hcopy]
    simp
  · intro r hr hexit
    unfold run_server at hr
    rcases hb : env.bindError with _ | msg
    · rw [hb] at hr
      dsimp only at hr
      split at hr
      · have := Option.some.inj hr
        rw [← this] at hexit
        exact absurd rfl hexit
      · exact absurd hr (by simp)
    · simp

/-- Witness for claim C7 (amended) at concrete filesystems, requests
and environment, exercising the 404 branch, the fstat-abort branch,
the loop-survives-aborts conjunct and the only-bind-fatal conjunct. -/
theorem claim_c7_witness :
    do_GET_io ioEmpty (pstr "/srv") ⟨pstr "/nope", false⟩ = .ok .notFound ∧
    do_GET_io ioFstatFail (pstr "/srv") ⟨pstr "/a.txt", true⟩ =
      .abortedNoStatus (pstr "/srv/a.txt") ∧
    (handle_requests_io ioFstatFail (pstr "/srv") [⟨pstr "/a.txt", false⟩]).length = 1 ∧
    envBindFail.bindError ≠ none := by
  refine ⟨?_, ?_, ?_, ?_⟩
  · exact (claim_c7_amended ioEmpty (pstr "/srv") ⟨pstr "/nope", false⟩ []
      [] (pstr "/srv") envBindFail).1 (by decide) (by decide)
  · exact (claim_c7_amended ioFstatFail (pstr "/srv") ⟨pstr "/a.txt", true⟩ [1, 2]
      [] (pstr "/srv") envBindFail).2.2.1 (by decide) (by decide) (by decide) (by decide)
  · exact (claim_c7_amended ioFstatFail (pstr "/srv") ⟨pstr "/a.txt", false⟩ [1, 2]
      [⟨pstr "/a.txt", false⟩] (pstr "/srv") envBindFail).2.2.2.2.1
  · exact (claim_c7_amended ioEmpty (pstr "/srv") ⟨pstr "/nope", false⟩ []
      [] (pstr "/srv") envBindFail).2.2.2.2.2
      { stdout := (pstr "Starting server in directory: " ++ pstr "/srv") ::
          pstr "Files in directory:" :: [pstr "  " ++ pstr "index.html"]
        exitCode := 1
        diagnostic := some (pstr "OSError: [Errno 98] Address already in use")
        socketClosed := false }
      rfl (by decide)

/-- Claim C4: if constructing the listening socket fails (port in use
or permission denied), the process terminates — it does not hang — with
a non-zero exit status after the interpreter prints the diagnostic for
the uncaught `OSError`. -/
theorem claim_c4 (dir : PyStr) (env : Env) (msg : PyStr) (h : env.bindError = some msg) :
    ∃ r, run_server dir env = some r ∧ r.exitCode ≠ 0 ∧ r.diagnostic = some msg := by
  unfold run_server
  rw [h]
  exact ⟨_, rfl, by simp, rfl⟩

/-- Witness for claim C4 in an environment whose bind fails. -/
theorem claim_c4_witness :
    ∃ r, run_server (pstr "/srv") envBindFail = some r ∧ r.exitCode ≠ 0 ∧
      r.diagnostic = some (pstr "OSError: [Errno 98] Address already in use") :=
  claim_c4 (pstr "/srv") envBindFail
    (pstr "OSError: [Errno 98] Address already in use") (by decide)

/-- Claim C5: when a `KeyboardInterrupt` arrives while the serve loop
is running, the server stops serving, the listening socket is closed,
the stopped message is printed, and the process exits with status 0. -/
theorem claim_c5 (dir : PyStr) (env : Env) (hb : env.bindError = none)
    (hi : env.interruptDuringServe = true) :
    ∃ r, run_server dir env = some r ∧ r.exitCode = 0 ∧ r.socketClosed = true ∧
      stopped_message ∈ r.stdout ∧ r.diagnostic = none := by
  unfold run_server
  rw [hb]
  dsimp only
  rw [if_pos hi]
  refine ⟨_, rfl, rfl, rfl, ?_, rfl⟩
  simp

/-- Witness for claim C5 in an environment that is interrupted. -/
theorem claim_c5_witness :
    ∃ r, run_server (pstr "/srv") envInterrupt = some r ∧ r.exitCode = 0 ∧
      r.socketClosed = true ∧ stopped_message ∈ r.stdout ∧ r.diagnostic = none :=
  claim_c5 (pstr "/srv") envInterrupt (by decide) (by decide)

/-- Claim C8: the configuration is fixed at startup from constants
only — the port is the hardcoded 5500 and the root directory is the
directory containing the running script; neither command-line
arguments nor environment variables enter the model. -/
theorem claim_c8 (cwd scriptPath : PyStr) :
    PORT = 5500 ∧ (server_config cwd scriptPath).port = 5500 ∧
    (server_config cwd scriptPath).directory =
      os_path_dirname (os_path_abspath cwd scriptPath) ∧
    bind_address.2 = 5500 :=
  ⟨rfl, rfl, rfl, rfl⟩

/-- Claim C10: the listening socket is bound with an empty host (all
interfaces) on port 5500, while the startup message names only
`localhost`. -/
theorem claim_c10 :
    bind_address.1 = [] ∧ bind_address.2 = PORT ∧
    started_message = pstr "Server started at http://localhost:5500" ∧
    pstr "localhost" <:+: started_message :=
  ⟨rfl, rfl, by decide, ⟨pstr "Server started at http://", pstr ":5500", by decide⟩⟩
